import Mathlib

/-!
Verification of the `ParkerGV6` motor-controller driver
(`automate/instruments/parker.py`).

The driver is embedded shallowly:

* every method that only sends commands is modelled as the list of command
  strings it passes to `self.write` (in order);
* `write` itself is modelled as the function that produces the exact text
  handed to the serial connection (`command + "\r"`);
* the reply-parsing methods (`getPosition`, `isMoving`, `read`) are modelled
  as pure functions of the reply text;
* Python's `int(·)` on a real number is truncation toward zero (`ratTrunc`),
  and `str(float(·))` for the finite-decimal arguments used by the driver is
  modelled by `floatStr`;
* the regular-expression search `re.search(r'(?<=TPE)-?\d+', s)` is modelled
  by `tpeSearch`, a position-by-position scan with a three-character
  lookbehind, an optional minus sign and a maximal nonempty digit run;
* the substitution `re.sub(r'\r\n\n(>|\?)? ', '', s)` of `read` is modelled
  by `reSub`, which scans left to right and removes every occurrence of
  `\r\n\n`, optionally followed by `>` or `?`, followed by a space.
-/

namespace ParkerGV6

/-- Truncation toward zero on rationals; models Python's `int(x)` applied to
a real value (floor for nonnegative, ceiling for negative). -/
def ratTrunc (q : ℚ) : ℤ := if 0 ≤ q then ⌊q⌋ else ⌈q⌉

/-- Digits of the fractional part `n / d` (most significant first), up to
`fuel` digits; used by `floatStr` and `sciMantissa`. -/
def fracDigits : Nat → Nat → Nat → List Char
  | 0, _, _ => []
  | _ + 1, 0, _ => []
  | fuel + 1, n, d => Nat.digitChar (n * 10 / d) :: fracDigits fuel (n * 10 % d) d

/-- Fixed-point decimal rendering `[-]ddd.ddd` of a finite-decimal rational:
optional minus sign, integer part `|num| / den`, a dot, and the fractional
digits (`"0"` when there are none); the fixed-notation branch of
`pyFloatStr`. -/
def floatStr (q : ℚ) : String :=
  (if q < 0 then "-" else "") ++ toString (q.num.natAbs / q.den) ++ "." ++
    (let fr := fracDigits 25 (q.num.natAbs % q.den) q.den
     if fr = [] then "0" else String.mk fr)

/-- Largest `k` with `den * 10^k ≤ num` (`fuel`-bounded): the decimal
exponent of `num / den` when that value is at least 1. -/
def expUp : Nat → Nat → Nat → Nat
  | 0, _, _ => 0
  | fuel + 1, num, den => if num < den * 10 then 0 else expUp fuel num (den * 10) + 1

/-- Least `k ≥ 1` with `num * 10^k ≥ den` (`fuel`-bounded): how far the
leading significant digit of `num / den < 1` sits behind the point. -/
def expDown : Nat → Nat → Nat → Nat
  | 0, _, _ => 1
  | fuel + 1, num, den => if den ≤ num * 10 then 1 else expDown fuel (num * 10) den + 1

/-- Decimal exponent of a nonzero rational: the `e` with
`10^e ≤ |q| < 10^(e+1)`. -/
def expOf (q : ℚ) : ℤ :=
  if 1 ≤ |q| then (expUp 400 q.num.natAbs q.den : ℤ)
  else -(expDown 400 q.num.natAbs q.den : ℤ)

/-- Exponent digits, padded to at least two digits as Python prints them
(`5 ↦ "05"`, `16 ↦ "16"`). -/
def expPad (n : Nat) : String :=
  if n < 10 then "0" ++ toString n else toString n

/-- Mantissa `d[.ddd]` of a scientific-notation value `m ∈ [1, 10)`; the
fractional part is omitted when zero, as Python does (`str(1e16) = "1e+16"`). -/
def sciMantissa (m : ℚ) : String :=
  toString (m.num.natAbs / m.den) ++
    (if fracDigits 25 (m.num.natAbs % m.den) m.den = [] then ""
     else "." ++ String.mk (fracDigits 25 (m.num.natAbs % m.den) m.den))

/-- Scientific notation `[-]d[.ddd]e±XX`. -/
def sciStr (q : ℚ) : String :=
  (if q < 0 then "-" else "") ++ sciMantissa (|q| * 10 ^ (-expOf q)) ++ "e" ++
    (if expOf q < 0 then "-" else "+") ++ expPad (expOf q).natAbs

/-- Models Python's `str(float(x))` on the finite-decimal rational values
Python displays (the `str` of every float denotes such a rational):
`"0.0"` for zero, fixed-point notation for `1/10^4 ≤ |x| < 10^16`, and
scientific notation with an at-least-two-digit exponent otherwise
(`str(1e16) = "1e+16"`, `str(1e-5) = "1e-05"`); infinities and NaN lie
outside this rational embedding. -/
def pyFloatStr (q : ℚ) : String :=
  if q = 0 then "0.0"
  else if |q| < 1 / 10000 ∨ (10 : ℚ) ^ (16 : ℕ) ≤ |q| then sciStr q
  else floatStr q

/-- Values Python renders in fixed-point (non-scientific) notation. -/
def fixedRegime (q : ℚ) : Prop :=
  q = 0 ∨ (1 / 10000 ≤ |q| ∧ |q| < (10 : ℚ) ^ (16 : ℕ))

/-- Class constant `degreesPerCount = 0.00045` (source comment:
"90 deg per 200,000 count"). -/
def degreesPerCount : ℚ := 0.00045

/-- Models `ParkerGV6.write`: the exact text handed to
`self.connection.write`, namely the command followed by a carriage return. -/
def write (command : String) : String := command ++ "\r"

/-- Commands sent by `enable()`. -/
def enable : List String := ["DRIVE1"]

/-- Commands sent by `disable()`. -/
def disable : List String := ["DRIVE0"]

/-- Commands sent by `move()`. -/
def move : List String := ["GO"]

/-- Commands sent by `stop()`. -/
def stop : List String := ["S"]

/-- Commands sent by `kill()`. -/
def kill : List String := ["K"]

/-- Commands sent by `setAbsolutePosition()`. -/
def setAbsolutePosition : List String := ["MA1", "MC0"]

/-- Commands sent by `setRelativePosition()`. -/
def setRelativePosition : List String := ["MA0", "MC0"]

/-- Commands sent by `setHardwareLimits(enable=False)`. -/
def setHardwareLimits (enable : Bool := false) : List String :=
  if enable then ["LH1"] else ["LH0"]

/-- Commands sent by `setEcho(enable=False)`. -/
def setEcho (enable : Bool := false) : List String :=
  if enable then ["ECHO1"] else ["ECHO0"]

/-- Commands sent by `setPosition(counts)`: `"D" + str(int(counts))`. -/
def setPosition (counts : ℚ) : List String := ["D" ++ toString (ratTrunc counts)]

/-- Commands sent by `setAngle(angle)`:
`setPosition(int(angle * degreesPerCount ** -1))`. -/
def setAngle (angle : ℚ) : List String :=
  setPosition ((ratTrunc (angle * degreesPerCount⁻¹) : ℤ) : ℚ)

/-- Commands sent by `setSoftwareLimits(positive, negative)`:
`"LSPOS%d" % int(positive)` then `"LSNEG%d" % int(negative)`. -/
def setSoftwareLimits (positive negative : ℚ) : List String :=
  ["LSPOS" ++ toString (ratTrunc positive), "LSNEG" ++ toString (ratTrunc negative)]

/-- Commands sent by `setAcceleration(acceleration)`:
`"A" + str(float(acceleration))`. -/
def setAcceleration (acceleration : ℚ) : List String :=
  ["A" ++ pyFloatStr acceleration]

/-- Commands sent by `setAverageAcceleration(acceleration)`:
`"AA" + str(float(acceleration))`. -/
def setAverageAcceleration (acceleration : ℚ) : List String :=
  ["AA" ++ pyFloatStr acceleration]

/-- Commands sent by `setVelocity(velocity)`: `"V" + str(float(velocity))`. -/
def setVelocity (velocity : ℚ) : List String :=
  ["V" ++ pyFloatStr velocity]

/-- Commands sent by `setDefaults()`, in source order. -/
def setDefaults : List String :=
  setEcho false ++ setHardwareLimits false ++ setAbsolutePosition ++
    setAverageAcceleration 1 ++ setAcceleration 1 ++ setVelocity 3

/-- Baud rate passed to `SerialAdapter` by `__init__`. -/
def initBaud : Nat := 9600

/-- Read timeout (seconds) passed to `SerialAdapter` by `__init__`. -/
def initTimeout : ℚ := 0.5

/-- Commands sent during `__init__` (it calls `setDefaults()` after opening
the connection). -/
def initCommands : List String := setDefaults

/-- Attributes defined on the class `ParkerGV6`; Python resolves
`self.<name>` against this set and raises `AttributeError` on a miss. -/
def classAttributes : List String :=
  ["degreesPerCount", "__init__", "setDefaults", "reset", "enable", "disable",
   "status", "isMoving", "getAngle", "getAngleError", "setAngle",
   "getPosition", "getPositionError", "setPosition", "move", "stop", "kill",
   "setAbsolutePosition", "setRelativePosition", "setHardwareLimits",
   "setSoftwareLimits", "setEcho", "setAcceleration",
   "setAverageAcceleration", "setVelocity", "write", "read"]

/-- Models `reset()`: it writes `RESET`, sleeps, then evaluates
`self.setDefault()`.  The result is the list of commands actually written
together with the exception raised, if any: when `setDefault` is not an
attribute of the class the call raises `AttributeError` after only `RESET`
has been written; had the attribute existed, the defaults and `DRIVE1`
would have followed. -/
def reset : List String × Option String :=
  if classAttributes.contains "setDefault" then
    (["RESET"] ++ setDefaults ++ enable, none)
  else
    (["RESET"], some "AttributeError")

/-- Command sent by `status()` before reading the reply. -/
def status : List String := ["TASF"]

/-- Fold of a digit run into its numeric value. -/
def digitsVal (ds : List Char) : Int :=
  (ds.foldl (fun n c => 10 * n + (c.toNat - 48)) 0 : Nat)

/-- Attempt of the regex tail `-?\d+` at one position: an optional minus
sign followed by a maximal nonempty run of decimal digits. -/
def matchNumAt : List Char → Option Int
  | [] => none
  | c :: t =>
    if c = '-' then
      let ds := t.takeWhile Char.isDigit
      if ds = [] then none else some (-(digitsVal ds))
    else
      let ds := (c :: t).takeWhile Char.isDigit
      if ds = [] then none else some (digitsVal ds)

/-- Lookbehind `(?<=TPE)`: the argument is the reversed prefix before the
current position, so it succeeds exactly when the three characters before
the position are `T`, `P`, `E`. -/
def lookbehindTPE : List Char → Bool
  | 'E' :: 'P' :: 'T' :: _ => true
  | _ => false

/-- Left-to-right scan of `re.search(r'(?<=TPE)-?\d+', ·)`: `pre` is the
reversed prefix before the current position, `rest` the remaining text; the
first position whose lookbehind and number pattern both succeed wins. -/
def tpeSearch : List Char → List Char → Option Int
  | pre, [] => if lookbehindTPE pre then matchNumAt [] else none
  | pre, c :: t =>
    match (if lookbehindTPE pre then matchNumAt (c :: t) else none) with
    | some n => some n
    | none => tpeSearch (c :: pre) t

/-- Models `getPosition()` as a function of the reply to the `TPE` query:
`re.search(r'(?<=TPE)-?\d+', reply)`, returning the matched integer, or
`none` when there is no match. -/
def getPosition (reply : String) : Option Int := tpeSearch [] reply.data

/-- Models `isMoving()`: `self.getPosition() == None` on the same reply. -/
def isMoving (reply : String) : Bool := getPosition reply == none

/-- Models `getAngle()`: the parsed position times `degreesPerCount`, or
`None` when the position is unavailable. -/
def getAngle (reply : String) : Option ℚ :=
  (getPosition reply).map (fun p => (p : ℚ) * degreesPerCount)

/-- Left-to-right scan of `re.sub(r'\r\n\n(>|\?)? ', '', ·)`: every
occurrence of `\r\n\n`, optionally followed by `>` or `?`, followed by a
space, is removed; all other characters pass through. -/
def reSub : List Char → List Char
  | '\r' :: '\n' :: '\n' :: '>' :: ' ' :: t => reSub t
  | '\r' :: '\n' :: '\n' :: '?' :: ' ' :: t => reSub t
  | '\r' :: '\n' :: '\n' :: ' ' :: t => reSub t
  | c :: t => c :: reSub t
  | [] => []

/-- Models `read()`: join the lines returned by the connection with a single
newline, then strip the reply-terminator pattern. -/
def readReply (lines : List String) : String :=
  String.mk (reSub (String.intercalate "\n" lines).data)

/-- Follows the claim's words for C2: `setAngle` as `setPosition` composed
with rounding `angle / degreesPerCount` to the nearest integer. -/
def setAngleClaim (angle : ℚ) : List String :=
  setPosition ((round (angle / degreesPerCount) : ℤ) : ℚ)

/-- Follows the spec's words for C4: the reply holds the token `TPE`
followed immediately by an optional minus sign and at least one decimal
digit. -/
def startsNumB : List Char → Bool
  | [] => false
  | c :: t =>
    if c = '-' then
      match t with
      | [] => false
      | d :: _ => d.isDigit
    else c.isDigit

/-- Mnemonic prefixes of the commands the driver can emit. -/
def mnemonics : List String :=
  ["RESET", "DRIVE1", "DRIVE0", "TASF", "TPE", "TPER", "GO", "S", "K",
   "MA1", "MC0", "MA0", "LH1", "LH0", "ECHO1", "ECHO0",
   "D", "LSPOS", "LSNEG", "A", "AA", "V"]

/-- Characters allowed in a decimal command argument. -/
def decimalChars (s : String) : Prop :=
  ∀ c ∈ s.data, c.isDigit = true ∨ c = '-' ∨ c = '.'

/-- One invocation of a public method of the driver, with its arguments. -/
inductive Invocation where
  | enable | disable | move | stop | kill
  | setAbsolutePosition | setRelativePosition
  | setHardwareLimits (en : Bool) | setEcho (en : Bool)
  | setPosition (counts : ℚ) | setAngle (angle : ℚ)
  | setSoftwareLimits (p n : ℚ)
  | setAcceleration (x : ℚ) | setAverageAcceleration (x : ℚ)
  | setVelocity (x : ℚ) | setDefaults | status
  | getPosition | getPositionError | isMoving | getAngle | getAngleError
  | reset

/-- Command strings an invocation passes to `write`, in order (query methods
write their query mnemonic; `reset` only gets as far as `RESET`). -/
def cmdsOf : Invocation → List String
  | .enable => enable
  | .disable => disable
  | .move => move
  | .stop => stop
  | .kill => kill
  | .setAbsolutePosition => setAbsolutePosition
  | .setRelativePosition => setRelativePosition
  | .setHardwareLimits en => setHardwareLimits en
  | .setEcho en => setEcho en
  | .setPosition c => setPosition c
  | .setAngle a => setAngle a
  | .setSoftwareLimits p n => setSoftwareLimits p n
  | .setAcceleration x => setAcceleration x
  | .setAverageAcceleration x => setAverageAcceleration x
  | .setVelocity x => setVelocity x
  | .setDefaults => setDefaults
  | .status => status
  | .getPosition => ["TPE"]
  | .getPositionError => ["TPER"]
  | .isMoving => ["TPE"]
  | .getAngle => ["TPE"]
  | .getAngleError => ["TPER"]
  | .reset => reset.1

/-- Arguments an invocation passes through `str(float(·))` formatting
(`setDefaults` passes only the literals 1 and 3, handled concretely). -/
def floatArgsOf : Invocation → List ℚ
  | .setAcceleration x => [x]
  | .setAverageAcceleration x => [x]
  | .setVelocity x => [x]
  | _ => []

/-- Wire form of one command: it decomposes as a known mnemonic plus a
decimal argument, and `write` terminates it with exactly one trailing
carriage return. -/
def goodWire (cmd : String) : Prop :=
  (∃ m arg, cmd = m ++ arg ∧ m ∈ mnemonics ∧ decimalChars arg) ∧
  write cmd = cmd ++ "\r" ∧ '\r' ∉ cmd.data ∧
  (write cmd).data.count '\r' = 1

/-- Positions the scan `tpeSearch pre rest` can still match: either the
pattern matches here, or it matches after shifting one character from
`rest` to the reversed prefix. -/
inductive Reach : List Char → List Char → Prop where
  | here {pre rest} (hl : lookbehindTPE pre = true) (hs : startsNumB rest = true) :
      Reach pre rest
  | step {pre c t} (h : Reach (c :: pre) t) : Reach pre (c :: t)

theorem ratTrunc_intCast (k : ℤ) : ratTrunc ((k : ℚ)) = k := by
  unfold ratTrunc
  split
  · exact Int.floor_intCast k
  · exact Int.ceil_intCast k

theorem startsNumB_iff_matchNumAt (v : List Char) :
    startsNumB v = true ↔ matchNumAt v ≠ none := by
  cases v with
  | nil => simp [startsNumB, matchNumAt]
  | cons c t =>
    by_cases hc : c = '-'
    · subst hc
      cases t with
      | nil => simp [startsNumB, matchNumAt]
      | cons d r =>
        simp only [startsNumB, matchNumAt, if_pos rfl, List.takeWhile]
        by_cases hd : d.isDigit
        · simp [hd]
        · simp only [Bool.not_eq_true] at hd
          simp [hd]
    · simp only [startsNumB, matchNumAt, if_neg hc, List.takeWhile_cons]
      by_cases hcd : c.isDigit
      · simp [hcd]
      · simp only [Bool.not_eq_true] at hcd
        simp [hcd]

theorem tpeSearch_none_iff (rest : List Char) : ∀ pre,
    tpeSearch pre rest = none ↔ ¬ Reach pre rest := by
  induction rest with
  | nil =>
    intro pre
    constructor
    · intro _ h
      cases h with
      | here hl hs => simp [startsNumB] at hs
    · intro _
      simp [tpeSearch, matchNumAt]
  | cons c t ih =>
    intro pre
    by_cases hl : lookbehindTPE pre = true
    · rcases hm : matchNumAt (c :: t) with _ | n
      · have hs : startsNumB (c :: t) ≠ true := fun h =>
          (startsNumB_iff_matchNumAt _).mp h hm
        constructor
        · intro hnone h
          cases h with
          | here hl' hs' => exact hs hs'
          | step h' =>
            rw [tpeSearch, hl, if_pos rfl, hm] at hnone
            exact (ih (c :: pre)).mp hnone h'
        · intro hnr
          rw [tpeSearch, hl, if_pos rfl, hm]
          exact (ih (c :: pre)).mpr (fun h' => hnr (Reach.step h'))
      · constructor
        · intro hnone
          rw [tpeSearch, hl, if_pos rfl, hm] at hnone
          exact absurd hnone (by simp)
        · intro hnr
          exact absurd
            (Reach.here hl ((startsNumB_iff_matchNumAt _).mpr (by simp [hm]))) hnr
    · simp only [Bool.not_eq_true] at hl
      constructor
      · intro hnone h
        cases h with
        | here hl' hs' => rw [hl] at hl'; exact Bool.false_ne_true hl'
        | step h' =>
          rw [tpeSearch, hl] at hnone
          simp only [if_neg Bool.false_ne_true] at hnone
          exact (ih (c :: pre)).mp hnone h'
      · intro hnr
        rw [tpeSearch, hl]
        simp only [if_neg Bool.false_ne_true]
        exact (ih (c :: pre)).mpr (fun h' => hnr (Reach.step h'))

theorem lookbehindTPE_iff (l : List Char) :
    lookbehindTPE l = true ↔ ∃ m, l = 'E' :: 'P' :: 'T' :: m := by
  constructor
  · intro h
    unfold lookbehindTPE at h
    split at h
    · exact ⟨_, rfl⟩
    · exact absurd h (by simp)
  · rintro ⟨m, rfl⟩
    rfl

theorem reach_iff (rest : List Char) : ∀ pre,
    Reach pre rest ↔
      ∃ a v, rest = a ++ v ∧ lookbehindTPE (a.reverse ++ pre) = true ∧
        startsNumB v = true := by
  induction rest with
  | nil =>
    intro pre
    constructor
    · intro h
      cases h with
      | here hl hs => simp [startsNumB] at hs
    · rintro ⟨a, v, heq, hl, hs⟩
      cases a with
      | cons x xs => simp at heq
      | nil =>
        simp only [List.nil_append] at heq
        rw [← heq] at hs
        simp [startsNumB] at hs
  | cons c t ih =>
    intro pre
    constructor
    · intro h
      cases h with
      | here hl hs => exact ⟨[], c :: t, rfl, by simpa using hl, hs⟩
      | step h' =>
        obtain ⟨a, v, heq, hl, hs⟩ := (ih (c :: pre)).mp h'
        refine ⟨c :: a, v, by simp [heq], ?_, hs⟩
        simpa [List.append_assoc] using hl
    · rintro ⟨a, v, heq, hl, hs⟩
      cases a with
      | nil =>
        simp only [List.nil_append] at heq
        simp only [List.reverse_nil, List.nil_append] at hl
        rw [heq]
        exact Reach.here hl hs
      | cons a0 a' =>
        simp only [List.cons_append, List.cons.injEq] at heq
        obtain ⟨rfl, rfl⟩ := heq
        apply Reach.step
        apply (ih (c :: pre)).mpr
        exact ⟨a', v, rfl, by simpa [List.append_assoc] using hl, hs⟩

theorem getPosition_none_iff (reply : String) :
    getPosition reply = none ↔
      ¬ ∃ u v, reply.data = u ++ 'T' :: 'P' :: 'E' :: v ∧ startsNumB v = true := by
  rw [getPosition, tpeSearch_none_iff, reach_iff]
  apply not_congr
  constructor
  · rintro ⟨a, v, heq, hl, hs⟩
    rw [List.append_nil] at hl
    obtain ⟨m, hm⟩ := (lookbehindTPE_iff _).mp hl
    have ha : a = m.reverse ++ ['T', 'P', 'E'] := by
      have h2 := congrArg List.reverse hm
      simpa using h2
    refine ⟨m.reverse, v, ?_, hs⟩
    rw [heq, ha]
    simp
  · rintro ⟨u, v, heq, hs⟩
    refine ⟨u ++ ['T', 'P', 'E'], v, by simpa using heq, ?_, hs⟩
    rw [List.append_nil]
    simp [lookbehindTPE]

theorem takeWhile_digits (ds : List Char) (h : ∀ c ∈ ds, c.isDigit = true) :
    ds.takeWhile Char.isDigit = ds :=
  List.takeWhile_eq_self_iff.mpr h

theorem tpeSearch_head_digits (ds : List Char) (hne : ds ≠ [])
    (hds : ∀ c ∈ ds, c.isDigit = true) :
    tpeSearch ['E', 'P', 'T'] ds = some (digitsVal ds) := by
  cases ds with
  | nil => exact absurd rfl hne
  | cons d t =>
    have hd : d.isDigit = true := hds d (by simp)
    have hdm : d ≠ '-' := by
      intro h
      rw [h] at hd
      exact absurd hd (by decide)
    rw [tpeSearch]
    have hl : lookbehindTPE ['E', 'P', 'T'] = true := rfl
    rw [hl, if_pos rfl]
    rw [matchNumAt, if_neg hdm]
    simp only [takeWhile_digits (d :: t) hds]
    simp

theorem tpeSearch_head_neg_digits (ds : List Char) (hne : ds ≠ [])
    (hds : ∀ c ∈ ds, c.isDigit = true) :
    tpeSearch ['E', 'P', 'T'] ('-' :: ds) = some (-(digitsVal ds)) := by
  rw [tpeSearch]
  have hl : lookbehindTPE ['E', 'P', 'T'] = true := rfl
  rw [hl, if_pos rfl]
  rw [matchNumAt, if_pos rfl]
  simp only [takeWhile_digits ds hds]
  rw [if_neg hne]

theorem reSub_cons_of_ne (c : Char) (t : List Char) (hc : c ≠ '\r') :
    reSub (c :: t) = c :: reSub t := by
  rw [reSub.eq_def]
  split <;> simp_all

theorem reSub_append (l m : List Char) (h : '\r' ∉ l) :
    reSub (l ++ m) = l ++ reSub m := by
  induction l with
  | nil => rfl
  | cons c t ih =>
    have hc : c ≠ '\r' := fun hc => h (hc ▸ List.mem_cons_self c t)
    have ht : '\r' ∉ t := fun hm => h (List.mem_cons_of_mem c hm)
    simp only [List.cons_append, reSub_cons_of_ne c _ hc, ih ht]

theorem reSub_no_cr (l : List Char) (h : '\r' ∉ l) : reSub l = l := by
  have h2 := reSub_append l [] h
  have h3 : reSub ([] : List Char) = [] := rfl
  rw [h3, List.append_nil] at h2
  exact h2

theorem no_cr_append (a b : List Char) (ha : '\r' ∉ a) (hb : '\r' ∉ b) :
    '\r' ∉ a ++ b := by
  intro hc
  rcases List.mem_append.mp hc with h | h
  · exact ha h
  · exact hb h

theorem digitChar_isDigit (k : Nat) (h : k < 10) :
    (Nat.digitChar k).isDigit = true := by
  interval_cases k <;> decide

theorem toDigitsCore_digits (fuel : Nat) : ∀ (n : Nat) (acc : List Char),
    (∀ c ∈ acc, c.isDigit = true) →
    ∀ c ∈ Nat.toDigitsCore 10 fuel n acc, c.isDigit = true := by
  induction fuel with
  | zero =>
    intro n acc hacc
    simpa [Nat.toDigitsCore] using hacc
  | succ fuel ih =>
    intro n acc hacc
    simp only [Nat.toDigitsCore]
    split
    · intro c hc
      rcases List.mem_cons.mp hc with h | h
      · subst h
        exact digitChar_isDigit _ (Nat.mod_lt _ (by norm_num))
      · exact hacc _ h
    · refine ih _ _ ?_
      intro c hc
      rcases List.mem_cons.mp hc with h | h
      · subst h
        exact digitChar_isDigit _ (Nat.mod_lt _ (by norm_num))
      · exact hacc _ h

theorem natRepr_digits (n : Nat) : ∀ c ∈ (Nat.repr n).data, c.isDigit = true := by
  have h := toDigitsCore_digits (n + 1) n [] (by simp)
  simpa [Nat.repr, Nat.toDigits, List.asString] using h

theorem intStr_decimal (i : ℤ) : decimalChars (toString i) := by
  have he : toString i = Int.repr i := rfl
  rw [he]
  cases i with
  | ofNat m =>
    intro c hc
    simp only [Int.repr] at hc
    exact Or.inl (natRepr_digits m c hc)
  | negSucc m =>
    intro c hc
    simp only [Int.repr] at hc
    rw [String.data_append] at hc
    rcases List.mem_append.mp hc with h | h
    · right; left
      simpa using h
    · exact Or.inl (natRepr_digits _ c h)

theorem fracDigits_digits (fuel : Nat) : ∀ n d : Nat, n < d →
    ∀ c ∈ fracDigits fuel n d, c.isDigit = true := by
  induction fuel with
  | zero =>
    intro n d _ c hc
    simp [fracDigits] at hc
  | succ fuel ih =>
    intro n d hnd c hc
    have hd0 : 0 < d := Nat.lt_of_le_of_lt (Nat.zero_le n) hnd
    cases n with
    | zero => simp [fracDigits] at hc
    | succ n' =>
      simp only [fracDigits] at hc
      rcases List.mem_cons.mp hc with h | h
      · subst h
        apply digitChar_isDigit
        rw [Nat.div_lt_iff_lt_mul hd0]
        omega
      · exact ih _ _ (Nat.mod_lt _ hd0) _ h

theorem floatStr_decimal (q : ℚ) : decimalChars (floatStr q) := by
  intro c hc
  unfold floatStr at hc
  simp only [String.data_append] at hc
  rcases List.mem_append.mp hc with h | h
  · rcases List.mem_append.mp h with h2 | h2
    · rcases List.mem_append.mp h2 with h3 | h3
      · by_cases hq : q < 0
        · rw [if_pos hq] at h3
          right; left
          simpa using h3
        · rw [if_neg hq] at h3
          simp at h3
      · exact Or.inl (natRepr_digits _ c h3)
    · right; right
      simpa using h2
  · by_cases hf : fracDigits 25 (q.num.natAbs % q.den) q.den = []
    · rw [if_pos hf] at h
      left
      simp at h
      rw [h]
      decide
    · rw [if_neg hf] at h
      exact Or.inl
        (fracDigits_digits 25 _ _ (Nat.mod_lt _ q.den_pos) c h)

theorem decimalChars_no_cr (s : String) (h : decimalChars s) : '\r' ∉ s.data := by
  intro hc
  rcases h _ hc with h1 | h1 | h1
  · exact absurd h1 (by decide)
  · exact absurd h1 (by decide)
  · exact absurd h1 (by decide)

theorem empty_decimal : decimalChars "" := by
  intro c hc
  simp at hc

theorem goodWire_of (m arg : String) (hm : m ∈ mnemonics) (hnc : '\r' ∉ m.data)
    (ha : decimalChars arg) : goodWire (m ++ arg) := by
  have hna : '\r' ∉ (m ++ arg).data := by
    rw [String.data_append]
    exact no_cr_append _ _ hnc (decimalChars_no_cr _ ha)
  refine ⟨⟨m, arg, rfl, hm, ha⟩, rfl, hna, ?_⟩
  show ((m ++ arg) ++ "\r").data.count '\r' = 1
  rw [String.data_append, List.count_append]
  rw [List.count_eq_zero.mpr hna]
  decide

theorem goodWire_mnemonic (m : String) (hm : m ∈ mnemonics)
    (hnc : '\r' ∉ m.data) : goodWire m := by
  have h := goodWire_of m "" hm hnc empty_decimal
  have he : m ++ "" = m := by simp
  rwa [he] at h

theorem digits_no_cr (l : List Char) (h : ∀ c ∈ l, c.isDigit = true) :
    '\r' ∉ l := by
  intro hc
  exact absurd (h _ hc) (by decide)

theorem natRepr_no_cr (n : Nat) : '\r' ∉ (Nat.repr n).data :=
  digits_no_cr _ (natRepr_digits n)

theorem concat_no_cr (m arg : String) (h1 : '\r' ∉ m.data)
    (h2 : '\r' ∉ arg.data) : '\r' ∉ (m ++ arg).data := by
  rw [String.data_append]
  exact no_cr_append _ _ h1 h2

theorem sciMantissa_no_cr (m : ℚ) : '\r' ∉ (sciMantissa m).data := by
  unfold sciMantissa
  apply concat_no_cr
  · exact natRepr_no_cr _
  · by_cases hf : fracDigits 25 (m.num.natAbs % m.den) m.den = []
    · rw [if_pos hf]
      decide
    · rw [if_neg hf]
      apply concat_no_cr
      · decide
      · exact digits_no_cr _ (fracDigits_digits 25 _ _ (Nat.mod_lt _ m.den_pos))

theorem expPad_no_cr (n : Nat) : '\r' ∉ (expPad n).data := by
  unfold expPad
  by_cases h : n < 10
  · rw [if_pos h]
    exact concat_no_cr _ _ (by decide) (natRepr_no_cr n)
  · rw [if_neg h]
    exact natRepr_no_cr n

theorem sciStr_no_cr (q : ℚ) : '\r' ∉ (sciStr q).data := by
  unfold sciStr
  apply concat_no_cr
  apply concat_no_cr
  apply concat_no_cr
  apply concat_no_cr
  · by_cases hq : q < 0
    · rw [if_pos hq]; decide
    · rw [if_neg hq]; decide
  · exact sciMantissa_no_cr _
  · decide
  · by_cases he : expOf q < 0
    · rw [if_pos he]; decide
    · rw [if_neg he]; decide
  · exact expPad_no_cr _

theorem pyFloatStr_no_cr (q : ℚ) : '\r' ∉ (pyFloatStr q).data := by
  unfold pyFloatStr
  by_cases h0 : q = 0
  · rw [if_pos h0]
    decide
  · rw [if_neg h0]
    by_cases hs : |q| < 1 / 10000 ∨ (10 : ℚ) ^ (16 : ℕ) ≤ |q|
    · rw [if_pos hs]
      exact sciStr_no_cr q
    · rw [if_neg hs]
      exact decimalChars_no_cr _ (floatStr_decimal q)

theorem pyFloatStr_decimal_of_fixed (q : ℚ) (h : fixedRegime q) :
    decimalChars (pyFloatStr q) := by
  unfold pyFloatStr
  rcases h with h0 | ⟨hlo, hhi⟩
  · rw [if_pos h0]
    intro c hc
    have hc' : c ∈ ['0', '.', '0'] := hc
    simp only [List.mem_cons, List.not_mem_nil, or_false] at hc'
    rcases hc' with rfl | rfl | rfl
    · left; decide
    · right; right; rfl
    · left; decide
  · have h0 : ¬ q = 0 := by
      intro h
      rw [h] at hlo
      norm_num at hlo
    have hne : ¬ (|q| < 1 / 10000 ∨ (10 : ℚ) ^ (16 : ℕ) ≤ |q|) := by
      push_neg
      exact ⟨hlo, hhi⟩
    rw [if_neg h0, if_neg hne]
    exact floatStr_decimal q

theorem wireCR (cmd : String) (h : '\r' ∉ cmd.data) :
    write cmd = cmd ++ "\r" ∧ '\r' ∉ cmd.data ∧
      (write cmd).data.count '\r' = 1 := by
  refine ⟨rfl, h, ?_⟩
  show (cmd ++ "\r").data.count '\r' = 1
  rw [String.data_append, List.count_append, List.count_eq_zero.mpr h]
  decide

theorem pyFloatStr_one : pyFloatStr 1 = "1.0" := by
  unfold pyFloatStr
  rw [if_neg (by norm_num : ¬ (1 : ℚ) = 0)]
  rw [if_neg (by norm_num : ¬ (|(1 : ℚ)| < 1 / 10000 ∨ (10 : ℚ) ^ (16 : ℕ) ≤ |(1 : ℚ)|))]
  decide

theorem pyFloatStr_three : pyFloatStr 3 = "3.0" := by
  unfold pyFloatStr
  rw [if_neg (by norm_num : ¬ (3 : ℚ) = 0)]
  rw [if_neg (by norm_num : ¬ (|(3 : ℚ)| < 1 / 10000 ∨ (10 : ℚ) ^ (16 : ℕ) ≤ |(3 : ℚ)|))]
  decide

/-- C1: the claim says `reset()` issues `RESET` and then, after the delay,
the full default sequence followed by `DRIVE1`, completing without an
exception.  The code instead calls the undefined attribute `setDefault`
(only `setDefaults` exists on the class), so after writing only `RESET` it
raises `AttributeError`. -/
theorem C1_reset_raises :
    reset = (["RESET"], some "AttributeError") ∧
    classAttributes.contains "setDefault" = false ∧
    classAttributes.contains "setDefaults" = true := by
  decide

/-- C2 counterexample: at angle `0.00072` (= 9/12500) the quotient by
`degreesPerCount` is 1.6; the code truncates it to 1 and emits `D1`, while
the claimed rounding composition would emit `D2`. -/
theorem C2_truncation_differs_from_rounding :
    setAngle (9 / 12500) = ["D1"] ∧ setAngleClaim (9 / 12500) = ["D2"] ∧
    setAngle (9 / 12500) ≠ setAngleClaim (9 / 12500) := by
  have h1 : ratTrunc ((9 / 12500 : ℚ) * degreesPerCount⁻¹) = 1 := by
    norm_num [ratTrunc, degreesPerCount]
  have h2 : round ((9 / 12500 : ℚ) / degreesPerCount) = 2 := by
    norm_num [round_eq, degreesPerCount]
  have e1 : setAngle (9 / 12500) = ["D1"] := by
    simp only [setAngle, h1, setPosition, ratTrunc_intCast]
    decide
  have e2 : setAngleClaim (9 / 12500) = ["D2"] := by
    simp only [setAngleClaim, h2, setPosition, ratTrunc_intCast]
    decide
  refine ⟨e1, e2, ?_⟩
  rw [e1, e2]
  decide

/-- C2 amended: `setAngle(a)` sends the same command as
`setPosition(int(a / degreesPerCount))` where `int` truncates toward zero;
this agrees with the claimed rounding whenever `a` is an exact integer
multiple of `degreesPerCount`, and in particular `setAngle(1.8)` emits
`D4000`. -/
theorem C2_setAngle_truncates :
    (∀ a : ℚ, setAngle a = setPosition ((ratTrunc (a / degreesPerCount) : ℤ) : ℚ)) ∧
    (∀ a : ℚ, (∃ k : ℤ, a = (k : ℚ) * degreesPerCount) →
      setAngle a = setAngleClaim a) ∧
    setAngle 1.8 = ["D4000"] := by
  refine ⟨?_, ?_, ?_⟩
  · intro a
    simp [setAngle, div_eq_mul_inv]
  · rintro a ⟨k, rfl⟩
    have hd : degreesPerCount ≠ 0 := by norm_num [degreesPerCount]
    have h1 : (k : ℚ) * degreesPerCount * degreesPerCount⁻¹ = (k : ℚ) := by
      field_simp
    have h2 : (k : ℚ) * degreesPerCount / degreesPerCount = (k : ℚ) := by
      field_simp
    simp only [setAngle, setAngleClaim, h1, h2, ratTrunc_intCast, round_intCast]
  · have h1 : ratTrunc ((1.8 : ℚ) * degreesPerCount⁻¹) = 4000 := by
      norm_num [ratTrunc, degreesPerCount]
    simp only [setAngle, h1, setPosition, ratTrunc_intCast]
    decide

/-- C2 witness: at the exact multiple `1.8 = 4000 * degreesPerCount`,
truncation and rounding agree. -/
theorem C2_setAngle_truncates_witness : setAngle 1.8 = setAngleClaim 1.8 :=
  C2_setAngle_truncates.2.1 1.8 ⟨4000, by norm_num [degreesPerCount]⟩

/-- C3 counterexample: `degreesPerCount` is `0.00045`, which is not
`90 / 4000` (= 0.0225), so the claimed consistency with "4000 counts = 1
revolution = 90 degrees" fails. -/
theorem C3_factor_not_90_over_4000 :
    ¬ (degreesPerCount = 45 / 100000 ∧ degreesPerCount = 90 / 4000) := by
  rintro ⟨h1, h2⟩
  rw [degreesPerCount] at h2
  norm_num at h2

/-- C3 amended: `degreesPerCount = 0.00045 = 90 / 200000`, matching the
source comment "90 deg per 200,000 count", not `90 / 4000`. -/
theorem C3_degreesPerCount_value :
    degreesPerCount = 45 / 100000 ∧ degreesPerCount = 90 / 200000 := by
  constructor <;> norm_num [degreesPerCount]

/-- C4: `getPosition` returns `none` exactly when the reply has no
occurrence of `TPE` followed immediately by an optional minus sign and at
least one digit (it is total, so no exception is possible); on a reply
`TPE<digits>` or `TPE-<digits>` it returns the (negated) digit value; and
concretely `TPE-120` parses to `-120` while `TPER` yields `none`. -/
theorem C4_getPosition_parse :
    (∀ reply : String, getPosition reply = none ↔
      ¬ ∃ u v, reply.data = u ++ 'T' :: 'P' :: 'E' :: v ∧ startsNumB v = true) ∧
    (∀ ds : List Char, ds ≠ [] → (∀ c ∈ ds, c.isDigit = true) →
      getPosition (String.mk ('T' :: 'P' :: 'E' :: ds)) = some (digitsVal ds) ∧
      getPosition (String.mk ('T' :: 'P' :: 'E' :: '-' :: ds)) =
        some (-(digitsVal ds))) ∧
    getPosition "TPE-120" = some (-120) ∧
    getPosition "TPER" = none := by
  refine ⟨getPosition_none_iff, ?_, by decide, by decide⟩
  intro ds hne hds
  constructor
  · show tpeSearch [] ('T' :: 'P' :: 'E' :: ds) = some (digitsVal ds)
    rw [tpeSearch, tpeSearch, tpeSearch]
    simp only [lookbehindTPE, Bool.false_eq_true, if_false]
    exact tpeSearch_head_digits ds hne hds
  · show tpeSearch [] ('T' :: 'P' :: 'E' :: '-' :: ds) = some (-(digitsVal ds))
    rw [tpeSearch, tpeSearch, tpeSearch]
    simp only [lookbehindTPE, Bool.false_eq_true, if_false]
    exact tpeSearch_head_neg_digits ds hne hds

/-- C4 witness: the theorem applied at the digit run `42` and at a reply
with no `TPE` match. -/
theorem C4_getPosition_parse_witness :
    getPosition (String.mk ['T', 'P', 'E', '4', '2']) = some (digitsVal ['4', '2']) ∧
    ¬ ∃ u v, "MOVING".data = u ++ 'T' :: 'P' :: 'E' :: v ∧ startsNumB v = true :=
  ⟨(C4_getPosition_parse.2.1 ['4', '2'] (by decide) (by decide)).1,
   (C4_getPosition_parse.1 "MOVING").mp (by decide)⟩

/-- C5 counterexample: the raw reply `"OK\r\n\n"` carries no prompt suffix,
yet `read`'s substitution requires a space after the optional prompt, so the
`\r\n\n` terminator is not stripped and the result is not `"OK"`. -/
theorem C5_no_space_not_stripped :
    readReply ["OK\r\n\n"] = "OK\r\n\n" ∧ readReply ["OK\r\n\n"] ≠ "OK" := by
  decide

/-- C5 amended: `"OK\r\n\n> "` normalizes to `"OK"`; replies without a
carriage return pass through unchanged apart from newline joining; and the
`\r\n\n` pattern is stripped exactly when it is followed by an optional
prompt character and a space. -/
theorem C5_read_normalization :
    readReply ["OK\r\n\n> "] = "OK" ∧
    (∀ s : String, '\r' ∉ s.data → readReply [s] = s) ∧
    (∀ s t : String, '\r' ∉ s.data → '\r' ∉ t.data →
      readReply [s, t] = s ++ "\n" ++ t) ∧
    (∀ s : String, '\r' ∉ s.data →
      readReply [s ++ "\r\n\n> "] = s ∧ readReply [s ++ "\r\n\n? "] = s ∧
      readReply [s ++ "\r\n\n "] = s ∧
      readReply [s ++ "\r\n\n"] = s ++ "\r\n\n") := by
  refine ⟨by decide, ?_, ?_, ?_⟩
  · intro s h
    show String.mk (reSub s.data) = s
    rw [reSub_no_cr s.data h]
  · intro s t hs ht
    show String.mk (reSub (s ++ "\n" ++ t).data) = s ++ "\n" ++ t
    rw [reSub_no_cr]
    rw [String.data_append, String.data_append]
    refine no_cr_append _ _ (no_cr_append _ _ hs (by decide)) ht
  · intro s h
    refine ⟨?_, ?_, ?_, ?_⟩
    · show String.mk (reSub (s ++ "\r\n\n> ").data) = s
      rw [String.data_append, reSub_append _ _ h]
      have h2 : reSub "\r\n\n> ".data = [] := rfl
      rw [h2, List.append_nil]
    · show String.mk (reSub (s ++ "\r\n\n? ").data) = s
      rw [String.data_append, reSub_append _ _ h]
      have h2 : reSub "\r\n\n? ".data = [] := rfl
      rw [h2, List.append_nil]
    · show String.mk (reSub (s ++ "\r\n\n ").data) = s
      rw [String.data_append, reSub_append _ _ h]
      have h2 : reSub "\r\n\n ".data = [] := rfl
      rw [h2, List.append_nil]
    · show String.mk (reSub (s ++ "\r\n\n").data) = s ++ "\r\n\n"
      rw [String.data_append, reSub_append _ _ h]
      rfl

/-- C5 witness: the amended theorem applied at concrete replies. -/
theorem C5_read_normalization_witness :
    readReply ["OK"] = "OK" ∧ readReply ["OK" ++ "\r\n\n? "] = "OK" :=
  ⟨C5_read_normalization.2.1 "OK" (by decide),
   (C5_read_normalization.2.2.2 "OK" (by decide)).2.1⟩

/-- C6: `isMoving()` is true exactly when `getPosition()` yields no value on
the same reply, and false exactly when it yields an integer. -/
theorem C6_isMoving_iff (reply : String) :
    (isMoving reply = true ↔ getPosition reply = none) ∧
    (isMoving reply = false ↔ ∃ n, getPosition reply = some n) := by
  cases h : getPosition reply with
  | none => simp [isMoving, h]
  | some n => simp [isMoving, h]

/-- C6 witness: both branches at concrete replies. -/
theorem C6_isMoving_iff_witness :
    isMoving "RESET" = true ∧ isMoving "TPE77" = false :=
  ⟨(C6_isMoving_iff "RESET").1.mpr (by decide),
   (C6_isMoving_iff "TPE77").2.mpr ⟨77, by decide⟩⟩

/-- C7: `setSoftwareLimits(100, -50)` emits exactly `LSPOS100` then
`LSNEG-50`, and for all integers `p`, `n` it emits `LSPOS<p>` then
`LSNEG<n>`, nothing else. -/
theorem C7_setSoftwareLimits_commands :
    setSoftwareLimits 100 (-50) = ["LSPOS100", "LSNEG-50"] ∧
    ∀ p n : ℤ, setSoftwareLimits (p : ℚ) (n : ℚ) =
      ["LSPOS" ++ toString p, "LSNEG" ++ toString n] := by
  have key : ∀ p n : ℤ, setSoftwareLimits (p : ℚ) (n : ℚ) =
      ["LSPOS" ++ toString p, "LSNEG" ++ toString n] := by
    intro p n
    simp [setSoftwareLimits, ratTrunc_intCast]
  refine ⟨?_, key⟩
  have h := key 100 (-50)
  have e1 : ((100 : ℤ) : ℚ) = (100 : ℚ) := by norm_num
  have e2 : ((-50 : ℤ) : ℚ) = (-50 : ℚ) := by norm_num
  rw [e1, e2] at h
  rw [h]
  decide

/-- C7 witness: the general form applied at `p = 7`, `n = -3`. -/
theorem C7_setSoftwareLimits_commands_witness :
    setSoftwareLimits ((7 : ℤ) : ℚ) (((-3 : ℤ) : ℚ)) =
      ["LSPOS" ++ toString (7 : ℤ), "LSNEG" ++ toString (-3 : ℤ)] :=
  C7_setSoftwareLimits_commands.2 7 (-3)

/-- C8: construction opens the serial connection at 9600 baud with a
0.5-second timeout and then sends the default configuration sequence
`ECHO0, LH0, MA1, MC0, AA1.0, A1.0, V3.0`, in that order. -/
theorem C8_init_defaults :
    initBaud = 9600 ∧ initTimeout = 1 / 2 ∧
    initCommands = ["ECHO0", "LH0", "MA1", "MC0", "AA1.0", "A1.0", "V3.0"] := by
  refine ⟨rfl, by norm_num [initTimeout], ?_⟩
  have h : initCommands =
      ["ECHO0", "LH0", "MA1", "MC0", "AA" ++ pyFloatStr 1, "A" ++ pyFloatStr 1,
       "V" ++ pyFloatStr 3] := rfl
  rw [h, pyFloatStr_one, pyFloatStr_three]
  decide

theorem cmds_no_cr : ∀ inv : Invocation, ∀ cmd ∈ cmdsOf inv, '\r' ∉ cmd.data := by
  intro inv cmd hc
  cases inv with
  | enable =>
    have hx : cmd ∈ ["DRIVE1"] := hc
    rw [List.mem_singleton] at hx
    subst hx
    decide
  | disable =>
    have hx : cmd ∈ ["DRIVE0"] := hc
    rw [List.mem_singleton] at hx
    subst hx
    decide
  | move =>
    have hx : cmd ∈ ["GO"] := hc
    rw [List.mem_singleton] at hx
    subst hx
    decide
  | stop =>
    have hx : cmd ∈ ["S"] := hc
    rw [List.mem_singleton] at hx
    subst hx
    decide
  | kill =>
    have hx : cmd ∈ ["K"] := hc
    rw [List.mem_singleton] at hx
    subst hx
    decide
  | setAbsolutePosition =>
    have hx : cmd ∈ ["MA1", "MC0"] := hc
    simp only [List.mem_cons, List.not_mem_nil, or_false] at hx
    rcases hx with rfl | rfl <;> decide
  | setRelativePosition =>
    have hx : cmd ∈ ["MA0", "MC0"] := hc
    simp only [List.mem_cons, List.not_mem_nil, or_false] at hx
    rcases hx with rfl | rfl <;> decide
  | setHardwareLimits en =>
    cases en with
    | true =>
      have hx : cmd ∈ ["LH1"] := hc
      rw [List.mem_singleton] at hx
      subst hx
      decide
    | false =>
      have hx : cmd ∈ ["LH0"] := hc
      rw [List.mem_singleton] at hx
      subst hx
      decide
  | setEcho en =>
    cases en with
    | true =>
      have hx : cmd ∈ ["ECHO1"] := hc
      rw [List.mem_singleton] at hx
      subst hx
      decide
    | false =>
      have hx : cmd ∈ ["ECHO0"] := hc
      rw [List.mem_singleton] at hx
      subst hx
      decide
  | setPosition c =>
    have hx : cmd ∈ ["D" ++ toString (ratTrunc c)] := hc
    rw [List.mem_singleton] at hx
    subst hx
    exact concat_no_cr _ _ (by decide) (decimalChars_no_cr _ (intStr_decimal _))
  | setAngle a =>
    have hx : cmd ∈
        ["D" ++ toString (ratTrunc ((ratTrunc (a * degreesPerCount⁻¹) : ℤ) : ℚ))] := hc
    rw [List.mem_singleton] at hx
    subst hx
    exact concat_no_cr _ _ (by decide) (decimalChars_no_cr _ (intStr_decimal _))
  | setSoftwareLimits p n =>
    have hx : cmd ∈
        ["LSPOS" ++ toString (ratTrunc p), "LSNEG" ++ toString (ratTrunc n)] := hc
    simp only [List.mem_cons, List.not_mem_nil, or_false] at hx
    rcases hx with rfl | rfl
    · exact concat_no_cr _ _ (by decide) (decimalChars_no_cr _ (intStr_decimal _))
    · exact concat_no_cr _ _ (by decide) (decimalChars_no_cr _ (intStr_decimal _))
  | setAcceleration x =>
    have hx : cmd ∈ ["A" ++ pyFloatStr x] := hc
    rw [List.mem_singleton] at hx
    subst hx
    exact concat_no_cr _ _ (by decide) (pyFloatStr_no_cr _)
  | setAverageAcceleration x =>
    have hx : cmd ∈ ["AA" ++ pyFloatStr x] := hc
    rw [List.mem_singleton] at hx
    subst hx
    exact concat_no_cr _ _ (by decide) (pyFloatStr_no_cr _)
  | setVelocity x =>
    have hx : cmd ∈ ["V" ++ pyFloatStr x] := hc
    rw [List.mem_singleton] at hx
    subst hx
    exact concat_no_cr _ _ (by decide) (pyFloatStr_no_cr _)
  | setDefaults =>
    have hx : cmd ∈
        ["ECHO0", "LH0", "MA1", "MC0", "AA" ++ pyFloatStr 1, "A" ++ pyFloatStr 1,
         "V" ++ pyFloatStr 3] := hc
    simp only [List.mem_cons, List.not_mem_nil, or_false] at hx
    rcases hx with rfl | rfl | rfl | rfl | rfl | rfl | rfl
    · decide
    · decide
    · decide
    · decide
    · exact concat_no_cr _ _ (by decide) (pyFloatStr_no_cr _)
    · exact concat_no_cr _ _ (by decide) (pyFloatStr_no_cr _)
    · exact concat_no_cr _ _ (by decide) (pyFloatStr_no_cr _)
  | status =>
    have hx : cmd ∈ ["TASF"] := hc
    rw [List.mem_singleton] at hx
    subst hx
    decide
  | getPosition =>
    have hx : cmd ∈ ["TPE"] := hc
    rw [List.mem_singleton] at hx
    subst hx
    decide
  | getPositionError =>
    have hx : cmd ∈ ["TPER"] := hc
    rw [List.mem_singleton] at hx
    subst hx
    decide
  | isMoving =>
    have hx : cmd ∈ ["TPE"] := hc
    rw [List.mem_singleton] at hx
    subst hx
    decide
  | getAngle =>
    have hx : cmd ∈ ["TPE"] := hc
    rw [List.mem_singleton] at hx
    subst hx
    decide
  | getAngleError =>
    have hx : cmd ∈ ["TPER"] := hc
    rw [List.mem_singleton] at hx
    subst hx
    decide
  | reset =>
    have hx : cmd ∈ ["RESET"] := hc
    rw [List.mem_singleton] at hx
    subst hx
    decide

theorem cmds_goodWire_of_fixed :
    ∀ inv : Invocation, (∀ x ∈ floatArgsOf inv, fixedRegime x) →
      ∀ cmd ∈ cmdsOf inv, goodWire cmd := by
  intro inv hreg cmd hc
  cases inv with
  | enable =>
    have hx : cmd ∈ ["DRIVE1"] := hc
    rw [List.mem_singleton] at hx
    subst hx
    exact goodWire_mnemonic "DRIVE1" (by decide) (by decide)
  | disable =>
    have hx : cmd ∈ ["DRIVE0"] := hc
    rw [List.mem_singleton] at hx
    subst hx
    exact goodWire_mnemonic "DRIVE0" (by decide) (by decide)
  | move =>
    have hx : cmd ∈ ["GO"] := hc
    rw [List.mem_singleton] at hx
    subst hx
    exact goodWire_mnemonic "GO" (by decide) (by decide)
  | stop =>
    have hx : cmd ∈ ["S"] := hc
    rw [List.mem_singleton] at hx
    subst hx
    exact goodWire_mnemonic "S" (by decide) (by decide)
  | kill =>
    have hx : cmd ∈ ["K"] := hc
    rw [List.mem_singleton] at hx
    subst hx
    exact goodWire_mnemonic "K" (by decide) (by decide)
  | setAbsolutePosition =>
    have hx : cmd ∈ ["MA1", "MC0"] := hc
    simp only [List.mem_cons, List.not_mem_nil, or_false] at hx
    rcases hx with rfl | rfl
    · exact goodWire_mnemonic "MA1" (by decide) (by decide)
    · exact goodWire_mnemonic "MC0" (by decide) (by decide)
  | setRelativePosition =>
    have hx : cmd ∈ ["MA0", "MC0"] := hc
    simp only [List.mem_cons, List.not_mem_nil, or_false] at hx
    rcases hx with rfl | rfl
    · exact goodWire_mnemonic "MA0" (by decide) (by decide)
    · exact goodWire_mnemonic "MC0" (by decide) (by decide)
  | setHardwareLimits en =>
    cases en with
    | true =>
      have hx : cmd ∈ ["LH1"] := hc
      rw [List.mem_singleton] at hx
      subst hx
      exact goodWire_mnemonic "LH1" (by decide) (by decide)
    | false =>
      have hx : cmd ∈ ["LH0"] := hc
      rw [List.mem_singleton] at hx
      subst hx
      exact goodWire_mnemonic "LH0" (by decide) (by decide)
  | setEcho en =>
    cases en with
    | true =>
      have hx : cmd ∈ ["ECHO1"] := hc
      rw [List.mem_singleton] at hx
      subst hx
      exact goodWire_mnemonic "ECHO1" (by decide) (by decide)
    | false =>
      have hx : cmd ∈ ["ECHO0"] := hc
      rw [List.mem_singleton] at hx
      subst hx
      exact goodWire_mnemonic "ECHO0" (by decide) (by decide)
  | setPosition c =>
    have hx : cmd ∈ ["D" ++ toString (ratTrunc c)] := hc
    rw [List.mem_singleton] at hx
    subst hx
    exact goodWire_of "D" _ (by decide) (by decide) (intStr_decimal _)
  | setAngle a =>
    have hx : cmd ∈
        ["D" ++ toString (ratTrunc ((ratTrunc (a * degreesPerCount⁻¹) : ℤ) : ℚ))] := hc
    rw [List.mem_singleton] at hx
    subst hx
    exact goodWire_of "D" _ (by decide) (by decide) (intStr_decimal _)
  | setSoftwareLimits p n =>
    have hx : cmd ∈
        ["LSPOS" ++ toString (ratTrunc p), "LSNEG" ++ toString (ratTrunc n)] := hc
    simp only [List.mem_cons, List.not_mem_nil, or_false] at hx
    rcases hx with rfl | rfl
    · exact goodWire_of "LSPOS" _ (by decide) (by decide) (intStr_decimal _)
    · exact goodWire_of "LSNEG" _ (by decide) (by decide) (intStr_decimal _)
  | setAcceleration x =>
    have hx : cmd ∈ ["A" ++ pyFloatStr x] := hc
    rw [List.mem_singleton] at hx
    subst hx
    exact goodWire_of "A" _ (by decide) (by decide)
      (pyFloatStr_decimal_of_fixed x (hreg x (List.mem_singleton.mpr rfl)))
  | setAverageAcceleration x =>
    have hx : cmd ∈ ["AA" ++ pyFloatStr x] := hc
    rw [List.mem_singleton] at hx
    subst hx
    exact goodWire_of "AA" _ (by decide) (by decide)
      (pyFloatStr_decimal_of_fixed x (hreg x (List.mem_singleton.mpr rfl)))
  | setVelocity x =>
    have hx : cmd ∈ ["V" ++ pyFloatStr x] := hc
    rw [List.mem_singleton] at hx
    subst hx
    exact goodWire_of "V" _ (by decide) (by decide)
      (pyFloatStr_decimal_of_fixed x (hreg x (List.mem_singleton.mpr rfl)))
  | setDefaults =>
    have hx : cmd ∈
        ["ECHO0", "LH0", "MA1", "MC0", "AA" ++ pyFloatStr 1, "A" ++ pyFloatStr 1,
         "V" ++ pyFloatStr 3] := hc
    simp only [List.mem_cons, List.not_mem_nil, or_false] at hx
    rcases hx with rfl | rfl | rfl | rfl | rfl | rfl | rfl
    · exact goodWire_mnemonic "ECHO0" (by decide) (by decide)
    · exact goodWire_mnemonic "LH0" (by decide) (by decide)
    · exact goodWire_mnemonic "MA1" (by decide) (by decide)
    · exact goodWire_mnemonic "MC0" (by decide) (by decide)
    · exact goodWire_of "AA" _ (by decide) (by decide)
        (by rw [pyFloatStr_one]; unfold decimalChars; decide)
    · exact goodWire_of "A" _ (by decide) (by decide)
        (by rw [pyFloatStr_one]; unfold decimalChars; decide)
    · exact goodWire_of "V" _ (by decide) (by decide)
        (by rw [pyFloatStr_three]; unfold decimalChars; decide)
  | status =>
    have hx : cmd ∈ ["TASF"] := hc
    rw [List.mem_singleton] at hx
    subst hx
    exact goodWire_mnemonic "TASF" (by decide) (by decide)
  | getPosition =>
    have hx : cmd ∈ ["TPE"] := hc
    rw [List.mem_singleton] at hx
    subst hx
    exact goodWire_mnemonic "TPE" (by decide) (by decide)
  | getPositionError =>
    have hx : cmd ∈ ["TPER"] := hc
    rw [List.mem_singleton] at hx
    subst hx
    exact goodWire_mnemonic "TPER" (by decide) (by decide)
  | isMoving =>
    have hx : cmd ∈ ["TPE"] := hc
    rw [List.mem_singleton] at hx
    subst hx
    exact goodWire_mnemonic "TPE" (by decide) (by decide)
  | getAngle =>
    have hx : cmd ∈ ["TPE"] := hc
    rw [List.mem_singleton] at hx
    subst hx
    exact goodWire_mnemonic "TPE" (by decide) (by decide)
  | getAngleError =>
    have hx : cmd ∈ ["TPER"] := hc
    rw [List.mem_singleton] at hx
    subst hx
    exact goodWire_mnemonic "TPER" (by decide) (by decide)
  | reset =>
    have hx : cmd ∈ ["RESET"] := hc
    rw [List.mem_singleton] at hx
    subst hx
    exact goodWire_mnemonic "RESET" (by decide) (by decide)

/-- C9 counterexample: at `setVelocity(10^16)` Python formats the float in
scientific notation, so the single text written is `V1e+16` (plus the
carriage return): its argument contains `e` and `+`, hence the body is not
a mnemonic followed by a decimal argument, refuting the claim for this
invocation. -/
theorem C9_scientific_notation :
    cmdsOf (Invocation.setVelocity 10000000000000000) = ["V1e+16"] ∧
    ¬ goodWire "V1e+16" := by
  have he : expOf (10000000000000000 : ℚ) = 16 := by
    unfold expOf
    rw [if_pos (by norm_num : (1 : ℚ) ≤ |(10000000000000000 : ℚ)|)]
    show ((expUp 400 10000000000000000 1 : Nat) : ℤ) = 16
    decide
  have hmant : |(10000000000000000 : ℚ)| * (10 : ℚ) ^ (-(16 : ℤ)) = 1 := by
    norm_num
  have hs : sciStr (10000000000000000 : ℚ) = "1e+16" := by
    unfold sciStr
    rw [he, if_neg (by norm_num : ¬ (10000000000000000 : ℚ) < 0), hmant,
      if_neg (by norm_num : ¬ (16 : ℤ) < 0)]
    decide
  have hp : pyFloatStr (10000000000000000 : ℚ) = "1e+16" := by
    unfold pyFloatStr
    rw [if_neg (by norm_num : ¬ (10000000000000000 : ℚ) = 0),
      if_pos (Or.inr
        (by norm_num : (10 : ℚ) ^ (16 : ℕ) ≤ |(10000000000000000 : ℚ)|))]
    exact hs
  constructor
  · show setVelocity 10000000000000000 = ["V1e+16"]
    unfold setVelocity
    rw [hp]
    decide
  · rintro ⟨⟨m, arg, heq, hm', ha⟩, -⟩
    have hd : m.data ++ arg.data = 'V' :: '1' :: 'e' :: '+' :: '1' :: '6' :: [] := by
      have h2 := congrArg String.data heq
      rw [String.data_append] at h2
      exact h2.symm
    cases hmd : m.data with
    | nil =>
      have hne : ∀ s ∈ mnemonics, s.data ≠ [] := by decide
      exact hne m hm' hmd
    | cons c0 md' =>
      rw [hmd, List.cons_append] at hd
      injection hd with hc0 hd'
      subst hc0
      cases md' with
      | nil =>
        have harg : arg.data = ['1', 'e', '+', '1', '6'] := by simpa using hd'
        have he' : 'e' ∈ arg.data := by
          rw [harg]
          decide
        rcases ha 'e' he' with h | h | h
        · exact absurd h (by decide)
        · exact absurd h (by decide)
        · exact absurd h (by decide)
      | cons c1 md'' =>
        have hkey : ∀ s ∈ mnemonics, s.data.head? = some 'V' →
            s.data.length = 1 := by decide
        have hlen := hkey m hm' (by rw [hmd]; rfl)
        rw [hmd] at hlen
        simp at hlen

/-- C9 amended: every piece of text an invocation hands to the connection is
terminated by exactly one trailing carriage return, for every operation and
argument; and the body is additionally a known command mnemonic followed by
a plain decimal argument whenever the acceleration/velocity arguments lie in
Python's fixed-point formatting range (values formatted in scientific
notation put an `e` in the body instead). -/
theorem C9_write_terminator :
    (∀ inv : Invocation, ∀ cmd ∈ cmdsOf inv,
      write cmd = cmd ++ "\r" ∧ '\r' ∉ cmd.data ∧
        (write cmd).data.count '\r' = 1) ∧
    (∀ inv : Invocation, (∀ x ∈ floatArgsOf inv, fixedRegime x) →
      ∀ cmd ∈ cmdsOf inv, goodWire cmd) :=
  ⟨fun inv cmd hc => wireCR cmd (cmds_no_cr inv cmd hc), cmds_goodWire_of_fixed⟩

/-- C9 witness: the terminator part at `enable`/`DRIVE1` and the full
mnemonic-plus-decimal form at `setEcho(True)`, which passes no float
argument. -/
theorem C9_write_terminator_witness :
    (write "DRIVE1" = "DRIVE1" ++ "\r" ∧ '\r' ∉ "DRIVE1".data ∧
      (write "DRIVE1").data.count '\r' = 1) ∧ goodWire "ECHO1" :=
  ⟨C9_write_terminator.1 Invocation.enable "DRIVE1" (by decide),
   C9_write_terminator.2 (Invocation.setEcho true) (by simp [floatArgsOf])
     "ECHO1" (by decide)⟩

/-- C10: called with no argument, `setEcho()` sends `ECHO0` and
`setHardwareLimits()` sends `LH0` — the `enable` parameter of both defaults
to false — while passing true sends `ECHO1` / `LH1`. -/
theorem C10_defaults_disable :
    setEcho = ["ECHO0"] ∧ setHardwareLimits = ["LH0"] ∧
    setEcho true = ["ECHO1"] ∧ setHardwareLimits true = ["LH1"] := by
  decide

end ParkerGV6
